import Mathlib

/-!
Verification of the complexity evaluator and block-string normalizer of the
graphql-query-complexity repository.

The types below shallowly embed the Go code:

* `Value`, `Argument`, `Selection`, `FragmentDefinition`, `Operation`,
  `ExecutableDefinition` embed the AST types from
  `github.com/graph-gophers/graphql-go/types` that the evaluator in
  `complexity.go` inspects.  Fields of those Go structs that the evaluator
  never reads (source locations, aliases, directives, type conditions,
  operation names/variable declarations) are omitted; the evaluator only ever
  reads `Name.Name`, `Arguments`, `SelectionSet`, `Selections`, `Fragment`,
  and `op.Type`.
* Go `nil` slices versus present slices are modelled with `Option (List _)`:
  `none` is a `nil` selection set, `some []` a present-but-empty one.
  Go `range` over a `nil` slice iterates zero times, which `optSels` captures.
* Go string-keyed maps (`vars`, `fieldOverrides`, `fragUsed`) are
  modelled as association lists read through `List.lookup`.  The fragment
  registry built by `GetQueryComplexity` prepends later definitions, so the
  first-match `lookup` realises Go's last-assignment-wins map writes.
* Go `int` is modelled as the unbounded `Int` (the idealized integer
  semantics; no claim under scrutiny concerns 64-bit wraparound).
* Go runtime variable values (`interface\x7b\x7d`) are modelled by
  `RuntimeValue`; `float64`/`float32` values carry the already-truncated
  `int(x)` (truncation toward zero), the only thing the evaluator reads.
* The Go evaluator recurses through the fragment registry and therefore
  diverges on cyclic fragment definitions.  The embedding adds an explicit
  `fuel` parameter, decremented on each recursive step; exhausted fuel yields
  a distinguished `"max recursion depth"` error corresponding to the Go
  code's divergence.  All theorems hold for every fuel value.
-/

namespace GQLComplexity

/-- Embeds the `types.Value` variants the evaluator can meet.
`primitive` is `types.PrimitiveValue` (its `String()` method returns its
raw `Text`), `varValue` is `types.Variable`.  The remaining variants all
fall through the evaluator's `switch` untouched. -/
inductive Value where
  | primitive (text : String)
  | varValue (name : String)
  | nullValue
  | listValue (values : List Value)
  | objectValue (fields : List (String × Value))
deriving Repr

/-- Embeds `types.Argument`: a name (`Name.Name`) and a value. -/
structure Argument where
  name : String
  value : Value
deriving Repr

/-- Embeds the three `types.Selection` variants: `*types.Field`,
`*types.FragmentSpread` and `*types.InlineFragment`.  For a field,
`selectionSet = none` embeds a `nil` Go slice (a leaf field). -/
inductive Selection where
  | field (name : String) (arguments : List Argument)
      (selectionSet : Option (List Selection))
  | fragmentSpread (name : String)
  | inlineFragment (selections : List Selection)
deriving Repr

/-- Ranging over a Go slice treats `nil` as empty. -/
def optSels : Option (List Selection) → List Selection
  | none => []
  | some l => l

/-- Embeds `types.FragmentDefinition` (name and selections; the evaluator
reads nothing else). -/
structure FragmentDefinition where
  name : String
  selections : List Selection
deriving Repr

/-- Embeds `query.OperationType`. -/
inductive OperationType where
  | query
  | mutation
  | subscription
deriving Repr, DecidableEq

/-- Embeds `query.Operation` (type and selections; the evaluator reads
nothing else). -/
structure Operation where
  opType : OperationType
  selections : List Selection
deriving Repr

/-- Embeds `query.ExecutableDefinition`: operations plus fragment
definitions, as produced by `query.Parse`. -/
structure ExecutableDefinition where
  operations : List Operation
  fragments : List FragmentDefinition
deriving Repr

/-- Embeds the Go runtime values (`interface\x7b\x7d`) the evaluator's type
switch distinguishes: `json.Number` (carrying its decimal text), `float64`
and `float32` (carrying the truncated `int(x)`, the only thing read), and
the remaining shapes which all fall through the switch. -/
inductive RuntimeValue where
  | jsonNumber (text : String)
  | floatVal (truncated : Int)
  | float32Val (truncated : Int)
  | stringVal (s : String)
  | boolVal (b : Bool)
  | nullValue
deriving Repr

/-- Embeds `queryState` from `complexity.go`. -/
structure QueryState where
  vars : List (String × RuntimeValue)
  fieldOverrides : List (String × Int)
  fragUsed : List (String × List Selection)

/-- The `connectionComplexity` constant (`complexity.go`). -/
def connectionComplexity : Int := 2

/-- The `objectComplexity` constant (`complexity.go`). -/
def objectComplexity : Int := 1

/-- The `mutationComplexity` constant (`complexity.go`). -/
def mutationComplexity : Int := 10

/-- Parses a run of ASCII decimal digits; `none` on an empty or non-digit
input.  Helper for `strconvAtoi`. -/
def digitsToNat : List Char → Option Nat
  | [] => none
  | cs => cs.foldl
      (fun acc c =>
        acc.bind fun n =>
          if c.isDigit then some (10 * n + (c.toNat - 48)) else none)
      (some 0)

/-- Embeds Go's `strconv.Atoi` on the idealized unbounded integer: an
optional sign followed by at least one decimal digit; `none` on any other
shape (Go additionally clamps out-of-range numerals, which the unbounded
model has no need for). -/
def strconvAtoi (s : String) : Option Int :=
  match s.data with
  | [] => none
  | '+' :: cs => (digitsToNat cs).map Int.ofNat
  | '-' :: cs => (digitsToNat cs).map (fun n => -(n : Int))
  | cs => (digitsToNat cs).map Int.ofNat

/-- Embeds the evaluator's coercion of a runtime variable value to an item
count (`getConnectionNodeCount`'s inner type switch): `json.Number` via
`Int64()` (base-10 integer parse, 0 when it fails), `float64`/`float32` via
`int(x)`, anything else leaves the zero default. -/
def coerceRuntime : RuntimeValue → Int
  | .jsonNumber t => (strconvAtoi t).getD 0
  | .floatVal n => n
  | .float32Val n => n
  | .stringVal _ => 0
  | .boolVal _ => 0
  | .nullValue => 0

/-- Embeds `isConnection` (`complexity.go`): scan for an argument named
`first` or `last`. -/
def isConnection : List Argument → Bool
  | [] => false
  | a :: rest => a.name == "first" || a.name == "last" || isConnection rest

/-- Embeds `isOverride` (`complexity.go`). -/
def isOverride (fieldName : String) (fieldOverrides : List (String × Int)) : Bool :=
  (fieldOverrides.lookup fieldName).isSome

/-- Embeds `getConnectionNodeCount` (`complexity.go`): the first argument
named `first` or `last` determines the count; a `PrimitiveValue` is parsed
with `strconv.Atoi` discarding the error (zero value on failure); a
`Variable` missing from the caller's mapping is the
`"Variable <argument name> not defined"` error (the Go code interpolates
`a.Name.Name`, the argument's name); a present variable value goes through
`coerceRuntime`; any other value shape leaves the zero default.  No later
pagination argument is reached: the loop returns inside the first match. -/
def getConnectionNodeCount :
    List Argument → List (String × RuntimeValue) → Except String Int
  | [], _ => .ok 0
  | a :: rest, vars =>
    if a.name == "first" || a.name == "last" then
      match a.value with
      | .primitive text => .ok ((strconvAtoi text).getD 0)
      | .varValue vname =>
        match vars.lookup vname with
        | none => .error ("Variable " ++ a.name ++ " not defined")
        | some rv => .ok (coerceRuntime rv)
      | _ => .ok 0
    else getConnectionNodeCount rest vars

/-- Embeds `calculateSelectionComplexity` (`complexity.go`), with `fuel`
bounding the recursion depth (the Go code diverges on cyclic fragments;
exhausted fuel errors instead).  Per field, in the Go source's order:
caller override (added verbatim, children unvisited); `pageInfo` (skipped);
`edges` (transparent recursion); connection (`isConnection` on the
arguments: subtree cost times item count plus `connectionComplexity`);
otherwise a non-`nil` selection set costs its subtree plus
`objectComplexity` and a `nil` one costs nothing.  Fragment spreads add the
registered selections' score or silently nothing; inline fragments recurse
unconditionally.  The first error aborts, as in Go. -/
def scoreSels : Nat → QueryState → List Selection → Except String Int
  | _, _, [] => .ok 0
  | 0, _, _ :: _ => .error "max recursion depth"
  | fuel + 1, st, sel :: rest =>
    match sel with
    | .field name args ss =>
      if isOverride name st.fieldOverrides then
        match scoreSels fuel st rest with
        | .error e => .error e
        | .ok r => .ok ((st.fieldOverrides.lookup name).getD 0 + r)
      else if name == "pageInfo" then
        scoreSels fuel st rest
      else if name == "edges" then
        match scoreSels fuel st (optSels ss) with
        | .error e => .error e
        | .ok c =>
          match scoreSels fuel st rest with
          | .error e => .error e
          | .ok r => .ok (c + r)
      else if isConnection args then
        match scoreSels fuel st (optSels ss) with
        | .error e => .error e
        | .ok c =>
          match getConnectionNodeCount args st.vars with
          | .error e => .error e
          | .ok n =>
            match scoreSels fuel st rest with
            | .error e => .error e
            | .ok r => .ok (n * c + connectionComplexity + r)
      else
        match ss with
        | some inner =>
          match scoreSels fuel st inner with
          | .error e => .error e
          | .ok c =>
            match scoreSels fuel st rest with
            | .error e => .error e
            | .ok r => .ok (c + objectComplexity + r)
        | none => scoreSels fuel st rest
    | .fragmentSpread name =>
      match st.fragUsed.lookup name with
      | some body =>
        match scoreSels fuel st body with
        | .error e => .error e
        | .ok c =>
          match scoreSels fuel st rest with
          | .error e => .error e
          | .ok r => .ok (c + r)
      | none => scoreSels fuel st rest
    | .inlineFragment sels =>
      match scoreSels fuel st sels with
      | .error e => .error e
      | .ok c =>
        match scoreSels fuel st rest with
        | .error e => .error e
        | .ok r => .ok (c + r)

/-- Embeds the inner loop of `calculateMutationComplexity`: the payload
field's immediate children.  A child `Field` adds
`calculateSelectionComplexity(child.SelectionSet)` (no object overhead); a
child `FragmentSpread` resolved in the registry adds the registered
selections' score; anything else is skipped by the type switch. -/
def mutationChildrenSum : Nat → QueryState → List Selection → Except String Int
  | _, _, [] => .ok 0
  | 0, _, _ :: _ => .error "max recursion depth"
  | fuel + 1, st, x :: rest =>
    match x with
    | .field _ _ ss =>
      match scoreSels fuel st (optSels ss) with
      | .error e => .error e
      | .ok c =>
        match mutationChildrenSum fuel st rest with
        | .error e => .error e
        | .ok r => .ok (c + r)
    | .fragmentSpread name =>
      match st.fragUsed.lookup name with
      | some body =>
        match scoreSels fuel st body with
        | .error e => .error e
        | .ok c =>
          match mutationChildrenSum fuel st rest with
          | .error e => .error e
          | .ok r => .ok (c + r)
      | none => mutationChildrenSum fuel st rest
    | .inlineFragment _ => mutationChildrenSum fuel st rest

/-- Embeds the outer loop of `calculateMutationComplexity`: only `Field`
selections are examined (the type switch has a single case), and for each
the sum over its immediate children is accumulated. -/
def mutationTopSum : Nat → QueryState → List Selection → Except String Int
  | _, _, [] => .ok 0
  | 0, _, _ :: _ => .error "max recursion depth"
  | fuel + 1, st, sel :: rest =>
    match sel with
    | .field _ _ ss =>
      match mutationChildrenSum fuel st (optSels ss) with
      | .error e => .error e
      | .ok c =>
        match mutationTopSum fuel st rest with
        | .error e => .error e
        | .ok r => .ok (c + r)
    | _ => mutationTopSum fuel st rest

/-- Embeds `calculateMutationComplexity` (`complexity.go`): the fixed
`mutationComplexity` base of 10 plus the payload traversal. -/
def calculateMutationComplexity
    (fuel : Nat) (st : QueryState) (sels : List Selection) :
    Except String Int :=
  match mutationTopSum fuel st sels with
  | .error e => .error e
  | .ok s => .ok (mutationComplexity + s)

/-- Embeds the fragment-registry construction in `GetQueryComplexity`
(`complexity.go` lines 39-41): each definition is written into the map in
document order, so a later definition overwrites an earlier one of the same
name.  Prepending realises the overwrite under first-match `List.lookup`. -/
def buildFragUsed (frags : List FragmentDefinition) :
    List (String × List Selection) :=
  frags.foldl (fun acc f => (f.name, f.selections) :: acc) []

/-- Embeds the per-operation loop of `GetQueryComplexity`: queries via
`calculateSelectionComplexity`, mutations via
`calculateMutationComplexity`, subscriptions contribute nothing; the first
error aborts. -/
def opsComplexity (fuel : Nat) (st : QueryState) :
    List Operation → Except String Int
  | [] => .ok 0
  | op :: rest =>
    match
      (match op.opType with
       | .query => scoreSels fuel st op.selections
       | .mutation => calculateMutationComplexity fuel st op.selections
       | .subscription => .ok 0) with
    | .error e => .error e
    | .ok c =>
      match opsComplexity fuel st rest with
      | .error e => .error e
      | .ok r => .ok (c + r)

/-- Embeds `GetQueryComplexity` (`complexity.go`) from the parsed document
onward: build the fragment registry, then accumulate per-operation scores.
(The `query.Parse` front end is not part of the scored semantics; a parse
error returns before any scoring.) -/
def getQueryComplexity (fuel : Nat) (doc : ExecutableDefinition)
    (vars : List (String × RuntimeValue))
    (fieldOverrides : List (String × Int)) : Except String Int :=
  opsComplexity fuel
    { vars := vars
      fieldOverrides := fieldOverrides
      fragUsed := buildFragUsed doc.fragments }
    doc.operations


/-- The pagination argument `getConnectionNodeCount` consults: the first
argument named `first` or `last` in source order, if any. -/
def consultedPaginationArg : List Argument → Option Argument
  | [] => none
  | a :: rest =>
    if a.name == "first" || a.name == "last" then some a
    else consultedPaginationArg rest

/-- Runtime values the evaluator's coercion treats as non-numeric: a
`json.Number` whose text is not a base-10 integer, or any shape other than
the three numeric ones. -/
def nonIntegerRuntime : RuntimeValue → Prop
  | .jsonNumber t => strconvAtoi t = none
  | .floatVal _ => False
  | .float32Val _ => False
  | .stringVal _ => True
  | .boolVal _ => True
  | .nullValue => True


/-- The spec-side reading of the fragment registry: the selections of the
last `FragmentDefinition` bearing the name in document order (definitions
scanned in order, later ones overwriting earlier). -/
def lastFragDef (frags : List FragmentDefinition) (name : String) :
    Option (List Selection) :=
  frags.foldl (fun acc f => if f.name == name then some f.selections else acc)
    none


/-- Decidable side condition for the amended C7: every connection argument
list in the tree (to the depth the given fuel reaches) resolves to a
non-negative item count when it resolves at all.  The recursion mirrors
`scoreSels`' fuel discipline so the predicate covers exactly the subtrees a
run with the same fuel can visit. -/
def countsNonneg (fuel : Nat) (vs : List (String × RuntimeValue)) :
    List Selection → Bool :=
  match fuel with
  | 0 => fun _ => true
  | fuel + 1 => fun sels =>
    match sels with
    | [] => true
    | sel :: rest =>
      match sel with
      | .field _ args ss =>
        (match getConnectionNodeCount args vs with
         | .ok n => decide (0 ≤ n)
         | .error _ => true)
        && countsNonneg fuel vs (optSels ss)
        && countsNonneg fuel vs rest
      | .fragmentSpread _ => countsNonneg fuel vs rest
      | .inlineFragment sels2 =>
        countsNonneg fuel vs sels2 && countsNonneg fuel vs rest


/-!
Block-string normalizer (`internal/common/parsedirectives.go`).  Strings
are modelled as their character lists.  The Go code mixes byte indexing
(`len`, `l[ind:]`) with rune counting (`leadingWhitespace` ranges over
runes): the two agree on everything the algorithm touches, because the
characters it strips or measures against are always the single-byte ASCII
`' '`/`'\t'` (a non-blank line's first `ind` characters are whitespace
since `ind` is the minimum indentation, and a blank line consists solely
of whitespace).
-/

/-- Embeds `leadingWhitespace`: the number of leading `'\t'`/`' '`
characters. -/
def leadingWhitespace : List Char → Nat
  | [] => 0
  | c :: cs =>
    if c == '\t' || c == ' ' then leadingWhitespace cs + 1 else 0

/-- Embeds `isBlank`: empty or all leading whitespace. -/
def isBlank (l : List Char) : Bool :=
  l.length == 0 || leadingWhitespace l == l.length

/-- Embeds the indentation-stripping step applied to each line after the
first: `lines[i] = ""` when shorter than the indent, else `l[ind:]`. -/
def stripIndent (ind : Nat) (l : List Char) : List Char :=
  if l.length < ind then [] else l.drop ind

/-- Embeds the loop of `blockStringIndentation`: running minimum (`none`
models the `nil` `commonIndent` pointer), skipping whole-whitespace lines,
returning 0 early on an unindented line. -/
def blockStringIndentationAux : Option Nat → List (List Char) → Nat
  | none, [] => 0
  | some c, [] => c
  | acc, l :: rest =>
    let indent := leadingWhitespace l
    if indent == l.length then blockStringIndentationAux acc rest
    else if indent == 0 then 0
    else
      match acc with
      | none => blockStringIndentationAux (some indent) rest
      | some c =>
        blockStringIndentationAux
          (some (if indent < c then indent else c)) rest

/-- Embeds `blockStringIndentation`: the loop starts at index 1. -/
def blockStringIndentation (lines : List (List Char)) : Nat :=
  blockStringIndentationAux none (lines.drop 1)

/-- Embeds `strings.Split(raw, "\n")` for the single-character separator:
the empty input yields one empty line, and every newline opens a new
line. -/
def splitLines : List Char → List (List Char)
  | [] => [[]]
  | c :: cs =>
    let r := splitLines cs
    if c == '\n' then [] :: r
    else
      match r with
      | [] => [[c]]
      | l :: ls => (c :: l) :: ls

/-- Embeds `strings.Join(lines, "\n")`. -/
def joinLines : List (List Char) → List Char
  | [] => []
  | [l] => l
  | l :: ls => l ++ '\n' :: joinLines ls

/-- Embeds `blockString`: split; strip the common indentation from every
line but the first when it is positive; drop leading blank lines; drop
trailing blank lines with the Go loop's `i > 0` guard, which never removes
the line at index 0; rejoin. -/
def blockString (raw : String) : String :=
  let lines := splitLines raw.data
  let ind := blockStringIndentation lines
  let lines2 :=
    if 0 < ind then
      match lines with
      | [] => []
      | first :: rest => first :: rest.map (stripIndent ind)
    else lines
  let lines3 := lines2.dropWhile isBlank
  let lines4 :=
    match lines3 with
    | [] => []
    | first :: rest =>
      first :: (rest.reverse.dropWhile isBlank).reverse
  ⟨joinLines lines4⟩

/-- Spec-side notion of a line that is entirely whitespace. -/
def isEntirelyWhitespace (l : List Char) : Bool :=
  l.all fun c => c == '\t' || c == ' '

/-- Spec-side indentation: the minimum leading-whitespace count among all
lines except the first, ignoring lines that are entirely whitespace (0
when there is no such line). -/
def specIndentation (lines : List (List Char)) : Nat :=
  match
    ((lines.drop 1).filter fun l => !(isEntirelyWhitespace l)).map
      leadingWhitespace with
  | [] => 0
  | x :: xs => xs.foldl min x

/-- Modelled from the spec's words for C9: split into lines; compute the
minimum leading-whitespace count among all lines except the first,
ignoring entirely-whitespace lines; strip that many leading characters
from every line except the first (lines shorter than the indent becoming
empty); strip leading and trailing fully-blank lines; rejoin with
newlines. -/
def blockStringSpec (raw : String) : String :=
  let lines := splitLines raw.data
  let ind := specIndentation lines
  let lines2 :=
    match lines with
    | [] => []
    | first :: rest => first :: rest.map (stripIndent ind)
  let lines3 := lines2.dropWhile isEntirelyWhitespace
  let lines4 := (lines3.reverse.dropWhile isEntirelyWhitespace).reverse
  ⟨joinLines lines4⟩


/-!
Validation of the embedding against the repository's test suite
(`complexity_test.go`): each example reproduces one test case's expected
complexity (or error) on the hand-translated AST of its query.
-/

open Selection Value in
example :
    getQueryComplexity 100
      ⟨[⟨.query,
          [field "groups" [⟨"first", primitive "5"⟩, ⟨"sort", primitive "FULL_PATH_ASC"⟩]
            (some [field "edges" []
              (some [field "node" [] (some [field "id" [] none])])])]⟩], []⟩
      [] [] = .ok 7 := rfl

open Selection Value in
example :
    getQueryComplexity 100
      ⟨[⟨.query,
          [field "groups" [⟨"first", varValue "first"⟩, ⟨"sort", primitive "FULL_PATH_ASC"⟩]
            (some [field "edges" []
              (some [field "node" [] (some [field "id" [] none])])])]⟩], []⟩
      [("first", .floatVal 5)] [] = .ok 7 := rfl

open Selection Value in
example :
    getQueryComplexity 100
      ⟨[⟨.query,
          [field "groups" [⟨"first", varValue "first"⟩, ⟨"sort", primitive "FULL_PATH_ASC"⟩]
            (some [field "edges" []
              (some [field "node" [] (some [field "id" [] none])])])]⟩], []⟩
      [] [] = .error "Variable first not defined" := rfl

open Selection Value in
example :
    getQueryComplexity 100
      ⟨[⟨.query,
          [field "groups" [⟨"first", primitive "0"⟩, ⟨"sort", primitive "FULL_PATH_ASC"⟩]
            (some [field "pageInfo" [] (some [field "hasNextPage" [] none, field "hasPreviousPage" [] none]),
                   field "edges" []
                     (some [field "node" [] (some [field "id" [] none, field "name" [] none,
                        field "fullPath" [] none,
                        field "parent" [] (some [field "id" [] none, field "name" [] none])])])])]⟩], []⟩
      [] [("node", 2), ("parent", 2)] = .ok 2 := rfl

open Selection Value in
example :
    getQueryComplexity 100
      ⟨[⟨.query, [field "group" [⟨"fullPath", primitive "\"colonies\""⟩]
          (some [field "name" [] none])]⟩], []⟩
      [] [] = .ok 1 := rfl

open Selection Value in
example :
    getQueryComplexity 100
      ⟨[⟨.query,
        [field "groups" [⟨"first", primitive "2"⟩]
          (some [field "edges" []
            (some [field "node" []
              (some [field "id" [] none, field "name" [] none,
                field "parent" [] (some [field "id" [] none]),
                field "decendentGroups" [⟨"last", primitive "3"⟩]
                  (some [field "edges" []
                    (some [field "node" []
                      (some [field "id" [] none, field "name" [] none,
                        field "decendentGroups" [⟨"first", primitive "4"⟩]
                          (some [field "edges" []
                            (some [field "node" []
                              (some [field "id" [] none, field "name" [] none,
                                field "parent" [] (some [field "id" [] none, field "name" [] none]),
                                field "decendentGroups" [⟨"last", primitive "0"⟩]
                                  (some [field "edges" []
                                    (some [field "node" []
                                      (some [field "id" [] none, field "name" [] none,
                                        field "description" [] none])])])])])])])])])])])])]⟩], []⟩
      [] [] = .ok 124 := rfl

open Selection Value in
example :
    getQueryComplexity 100
      ⟨[⟨.mutation,
        [field "createGroup" [⟨"input", objectValue [("name", primitive "\"testGroup3\"")]⟩]
          (some [field "group" []
              (some [field "id" [] none, field "name" [] none,
                field "decendentGroups" [⟨"first", primitive "1"⟩]
                  (some [field "edges" []
                    (some [field "node" []
                      (some [field "id" [] none, field "name" [] none,
                        field "parent" [] (some [field "id" [] none, field "name" [] none])])])])]),
            field "problems" [] (some [field "message" [] none])])]⟩], []⟩
      [] [] = .ok 14 := rfl

open Selection Value in
example :
    getQueryComplexity 100
      ⟨[⟨.mutation,
        [field "updateGroup" [⟨"input", objectValue []⟩]
          (some [field "clientMutationId" [] none,
            field "problems" [] (some [field "message" [] none])])]⟩], []⟩
      [] [] = .ok 10 := rfl

open Selection Value in
example :
    getQueryComplexity 100
      ⟨[⟨.query, [field "groups" [⟨"first", primitive "5"⟩]
          (some [fragmentSpread "connection"])]⟩],
        [⟨"connection",
          [field "pageInfo" [] (some [field "endCursor" [] none, field "startCursor" [] none]),
           field "edges" [] (some [field "node" []
             (some [field "id" [] none, field "name" [] none,
               field "parent" [] (some [field "name" [] none])])])]⟩]⟩
      [] [] = .ok 12 := rfl

open Selection Value in
example :
    getQueryComplexity 100
      ⟨[⟨.mutation,
        [field "createGroup" [⟨"input", objectValue []⟩]
          (some [fragmentSpread "groupFragment",
            field "problems" [] (some [field "message" [] none])])]⟩],
        [⟨"groupFragment",
          [field "edges" [] (some [field "node" []
            (some [field "id" [] none, field "name" [] none,
              field "parent" [] (some [field "id" [] none, field "name" [] none])])])]⟩]⟩
      [] [] = .ok 12 := rfl

open Selection Value in
example :
    getQueryComplexity 100
      ⟨[⟨.query,
        [field "groups" [⟨"first", primitive "2"⟩]
          (some [field "edges" [] (some [field "node" []
            (some [field "id" [] none, field "name" [] none,
              field "parent" [] (some [field "id" [] none])])])])]⟩], []⟩
      [] [("groups", 4)] = .ok 4 := rfl

open Selection Value in
example :
    getQueryComplexity 100
      ⟨[⟨.query,
        [field "me" []
          (some [inlineFragment
            [field "memberships" [⟨"first", primitive "100"⟩]
              (some [field "edges" [] (some [field "node" []
                (some [field "id" [] none, field "role" [] none,
                  field "namespace" []
                    (some [inlineFragment [field "fullPath" [] none],
                           inlineFragment [field "fullPath" [] none]])])])])]])]⟩], []⟩
      [] [] = .ok 203 := rfl

example :
    blockString "\n  Hello,\n    World!\n\n  Yours,\n    GraphQL.\n" =
      "Hello,\n  World!\n\nYours,\n  GraphQL." := rfl

example : blockString "a\n b\n  c" = "a\nb\n c" := rfl
/-- Unfolding of the entirely-whitespace test on a cons cell. -/
theorem isEntirelyWhitespace_cons (c : Char) (cs : List Char) :
    isEntirelyWhitespace (c :: cs) =
      ((c == '\t' || c == ' ') && isEntirelyWhitespace cs) := by
  simp [isEntirelyWhitespace]

/-- Successor cancellation for the boolean Nat equality test. -/
theorem succ_beq_succ (a b : Nat) : (a + 1 == b + 1) = (a == b) := by
  by_cases hab : a = b
  · subst hab
    simp
  · have h1 : (a == b) = false := beq_eq_false_iff_ne.mpr hab
    have h2 : (a + 1 == b + 1) = false :=
      beq_eq_false_iff_ne.mpr (by omega)
    rw [h1, h2]

/-- Go's blankness test in the indentation loop coincides with being
entirely whitespace. -/
theorem lwEqLen_eq_isEntirelyWhitespace (l : List Char) :
    (leadingWhitespace l == l.length) = isEntirelyWhitespace l := by
  induction l with
  | nil => rfl
  | cons c cs ih =>
    rw [isEntirelyWhitespace_cons, List.length_cons]
    by_cases h : (c == '\t' || c == ' ') = true
    · have hlw : leadingWhitespace (c :: cs) = leadingWhitespace cs + 1 := by
        simp [leadingWhitespace, h]
      rw [hlw, h, Bool.true_and, succ_beq_succ, ih]
    · have h' : (c == '\t' || c == ' ') = false := by simpa using h
      have hlw : leadingWhitespace (c :: cs) = 0 := by
        simp [leadingWhitespace, h']
      rw [hlw, h', Bool.false_and]
      have hz : (0 == cs.length + 1) = false :=
        beq_eq_false_iff_ne.mpr (by omega)
      rw [hz]

/-- `isBlank` coincides with being entirely whitespace. -/
theorem isBlank_eq_isEntirelyWhitespace (l : List Char) :
    isBlank l = isEntirelyWhitespace l := by
  cases l with
  | nil => rfl
  | cons c cs =>
    simp only [isBlank]
    rw [lwEqLen_eq_isEntirelyWhitespace (c :: cs)]
    have hlen : ((c :: cs).length == 0) = false :=
      beq_eq_false_iff_ne.mpr (by simp)
    rw [hlen, Bool.false_or]

/-- Folding `min` from 0 stays 0. -/
theorem foldl_min_zero (xs : List Nat) : xs.foldl min 0 = 0 := by
  induction xs with
  | nil => rfl
  | cons x xs ih => simpa [Nat.zero_min] using ih

/-- The running-minimum loop seeded with `c` computes the fold of `min`
over the indentations of the non-whitespace lines. -/
theorem blockStringIndentationAux_some (L : List (List Char)) :
    ∀ c : Nat,
      blockStringIndentationAux (some c) L =
        ((L.filter fun l => !(isEntirelyWhitespace l)).map
          leadingWhitespace).foldl min c := by
  induction L with
  | nil => intro c; rfl
  | cons l rest ih =>
    intro c
    by_cases hw : isEntirelyWhitespace l = true
    · have hcond : (leadingWhitespace l == l.length) = true := by
        rw [lwEqLen_eq_isEntirelyWhitespace]; exact hw
      have hstep : blockStringIndentationAux (some c) (l :: rest) =
          blockStringIndentationAux (some c) rest := by
        simp [blockStringIndentationAux, hcond]
      rw [hstep, ih c]
      have hfilter :
          List.filter (fun x => !(isEntirelyWhitespace x)) (l :: rest) =
            List.filter (fun x => !(isEntirelyWhitespace x)) rest := by
        simp [hw]
      rw [hfilter]
    · have hw' : isEntirelyWhitespace l = false := by simpa using hw
      have hcond : (leadingWhitespace l == l.length) = false := by
        rw [lwEqLen_eq_isEntirelyWhitespace]; exact hw'
      have hfilter :
          List.filter (fun x => !(isEntirelyWhitespace x)) (l :: rest) =
            l :: List.filter (fun x => !(isEntirelyWhitespace x)) rest := by
        simp [hw']
      rw [hfilter, List.map_cons, List.foldl_cons]
      by_cases h0 : leadingWhitespace l = 0
      · have hstep : blockStringIndentationAux (some c) (l :: rest) = 0 := by
          simp only [blockStringIndentationAux]
          rw [if_neg (by simp [hcond]), if_pos (by simp [h0])]
        rw [hstep, h0, Nat.min_zero, foldl_min_zero]
      · have h0' : (leadingWhitespace l == 0) = false := by
          simpa using h0
        have hstep : blockStringIndentationAux (some c) (l :: rest) =
            blockStringIndentationAux
              (some (if leadingWhitespace l < c then leadingWhitespace l
                else c)) rest := by
          simp [blockStringIndentationAux, hcond, h0']
        rw [hstep, ih]
        congr 1
        by_cases hlt : leadingWhitespace l < c
        · rw [if_pos hlt, Nat.min_def, if_neg (by omega)]
        · rw [if_neg hlt, Nat.min_def, if_pos (by omega)]

/-- The running-minimum loop seeded empty computes the spec's minimum. -/
theorem blockStringIndentationAux_none (L : List (List Char)) :
    blockStringIndentationAux none L =
      (match (L.filter fun l => !(isEntirelyWhitespace l)).map
          leadingWhitespace with
       | [] => 0
       | x :: xs => xs.foldl min x) := by
  induction L with
  | nil => rfl
  | cons l rest ih =>
    by_cases hw : isEntirelyWhitespace l = true
    · have hcond : (leadingWhitespace l == l.length) = true := by
        rw [lwEqLen_eq_isEntirelyWhitespace]; exact hw
      have hstep : blockStringIndentationAux none (l :: rest) =
          blockStringIndentationAux none rest := by
        simp [blockStringIndentationAux, hcond]
      have hfilter :
          List.filter (fun x => !(isEntirelyWhitespace x)) (l :: rest) =
            List.filter (fun x => !(isEntirelyWhitespace x)) rest := by
        simp [hw]
      rw [hstep, ih, hfilter]
    · have hw' : isEntirelyWhitespace l = false := by simpa using hw
      have hcond : (leadingWhitespace l == l.length) = false := by
        rw [lwEqLen_eq_isEntirelyWhitespace]; exact hw'
      have hfilter :
          List.filter (fun x => !(isEntirelyWhitespace x)) (l :: rest) =
            l :: List.filter (fun x => !(isEntirelyWhitespace x)) rest := by
        simp [hw']
      rw [hfilter, List.map_cons]
      dsimp only
      by_cases h0 : leadingWhitespace l = 0
      · have hstep : blockStringIndentationAux none (l :: rest) = 0 := by
          simp only [blockStringIndentationAux]
          rw [if_neg (by simp [hcond]), if_pos (by simp [h0])]
        rw [hstep, h0, foldl_min_zero]
      · have h0' : (leadingWhitespace l == 0) = false := by
          simpa using h0
        have hstep : blockStringIndentationAux none (l :: rest) =
            blockStringIndentationAux (some (leadingWhitespace l)) rest := by
          simp [blockStringIndentationAux, hcond, h0']
        rw [hstep, blockStringIndentationAux_some]

/-- The Go indentation computation equals the spec's minimum. -/
theorem blockStringIndentation_eq_spec (lines : List (List Char)) :
    blockStringIndentation lines = specIndentation lines := by
  unfold blockStringIndentation specIndentation
  exact blockStringIndentationAux_none (lines.drop 1)

/-- `splitLines` never returns the empty list of lines. -/
theorem splitLines_ne_nil (cs : List Char) : splitLines cs ≠ [] := by
  induction cs with
  | nil => simp [splitLines]
  | cons c cs ih =>
    simp only [splitLines]
    by_cases h : (c == '\n') = true
    · simp [h]
    · simp only [h, if_false]
      cases hr : splitLines cs with
      | nil => simp
      | cons l ls => simp

/-- Dropping while a predicate holds over a list ending in an element the
predicate rejects keeps that element last. -/
theorem dropWhile_append_reject (p : List Char → Bool) (h : List Char)
    (hph : p h = false) :
    ∀ l : List (List Char),
      ((l ++ [h]).dropWhile p).reverse = h :: (l.dropWhile p).reverse := by
  intro l
  induction l with
  | nil => simp [List.dropWhile, hph]
  | cons x l ih =>
    by_cases hx : p x = true
    · simpa [List.dropWhile, hx] using ih
    · have hx' : p x = false := by simpa using hx
      simp [List.dropWhile, hx']

/-- After dropping leading elements satisfying `p`, the head (if any)
rejects `p`. -/
theorem dropWhile_head_reject (p : List Char → Bool) :
    ∀ L : List (List Char),
      L.dropWhile p = [] ∨
        ∃ h t, L.dropWhile p = h :: t ∧ p h = false := by
  intro L
  induction L with
  | nil => exact Or.inl rfl
  | cons x L ih =>
    by_cases hx : p x = true
    · simpa [List.dropWhile, hx] using ih
    · have hx' : p x = false := by simpa using hx
      exact Or.inr ⟨x, L, by simp [List.dropWhile, hx'], hx'⟩

/-- The Go trailing trim, which never removes index 0, agrees with the
unguarded trailing trim once the leading trim has run. -/
theorem guarded_trailing_trim_eq (L : List (List Char)) :
    (match L.dropWhile isEntirelyWhitespace with
     | [] => ([] : List (List Char))
     | first :: rest =>
       first :: (rest.reverse.dropWhile isEntirelyWhitespace).reverse) =
    ((L.dropWhile isEntirelyWhitespace).reverse.dropWhile
        isEntirelyWhitespace).reverse := by
  rcases dropWhile_head_reject isEntirelyWhitespace L with h | ⟨f, t, heq, hpf⟩
  · rw [h]
    rfl
  · rw [heq]
    have h2 : ((f :: t).reverse.dropWhile isEntirelyWhitespace).reverse =
        f :: (t.reverse.dropWhile isEntirelyWhitespace).reverse := by
      rw [List.reverse_cons,
        dropWhile_append_reject isEntirelyWhitespace f hpf t.reverse]
    rw [h2]

/-- C9: the block-string normalizer returns exactly the spec's algorithm:
split into lines, compute the minimum leading-whitespace count among all
lines except the first ignoring entirely-whitespace lines, strip that many
leading whitespace characters from every line except the first (shorter
lines becoming empty), strip leading and trailing fully-blank lines, and
rejoin with newlines. -/
theorem blockString_matches_spec (raw : String) :
    blockString raw = blockStringSpec raw := by
  have hblank : isBlank = isEntirelyWhitespace :=
    funext isBlank_eq_isEntirelyWhitespace
  cases hsplit : splitLines raw.data with
  | nil => exact absurd hsplit (splitLines_ne_nil raw.data)
  | cons first rest =>
    simp only [blockString, blockStringSpec, hsplit, hblank,
      blockStringIndentation_eq_spec]
    by_cases hpos : 0 < specIndentation (first :: rest)
    · rw [if_pos hpos]
      exact congrArg (fun ls => ({ data := joinLines ls } : String))
        (guarded_trailing_trim_eq _)
    · rw [if_neg hpos]
      have h0 : specIndentation (first :: rest) = 0 := by omega
      have hid : stripIndent 0 = id := by
        funext l
        simp [stripIndent]
      have hmap : rest.map (stripIndent (specIndentation (first :: rest))) =
          rest := by
        rw [h0, hid, List.map_id]
      rw [hmap]
      exact congrArg (fun ls => ({ data := joinLines ls } : String))
        (guarded_trailing_trim_eq _)
/-- Looking up the registry built by prepending equals the left fold that
keeps the last definition of the name. -/
theorem lookup_buildFragAux (frags : List FragmentDefinition)
    (acc : List (String × List Selection)) (name : String) :
    (frags.foldl (fun acc f => (f.name, f.selections) :: acc) acc).lookup
        name =
      frags.foldl
        (fun o f => if f.name == name then some f.selections else o)
        (acc.lookup name) := by
  induction frags generalizing acc with
  | nil => rfl
  | cons f rest ih =>
    simp only [List.foldl_cons]
    rw [ih]
    congr 1
    by_cases h : name = f.name
    · subst h
      simp [List.lookup]
    · have h1 : (name == f.name) = false := beq_eq_false_iff_ne.mpr h
      have h2 : (f.name == name) = false :=
        beq_eq_false_iff_ne.mpr (Ne.symm h)
      simp [List.lookup, h1, h2]

/-- C6: the fragment registry maps each name to the selections of the last
`FragmentDefinition` bearing it in document order; a `FragmentSpread` whose
name is registered contributes the registered selections' score, and one
whose name is absent contributes exactly zero without error. -/
theorem fragment_registry_and_spread :
    (∀ (frags : List FragmentDefinition) (name : String),
        (buildFragUsed frags).lookup name = lastFragDef frags name)
    ∧ (∀ (fuel : Nat) (st : QueryState) (name : String)
          (body rest : List Selection) (c r : Int),
        st.fragUsed.lookup name = some body →
        scoreSels fuel st body = .ok c →
        scoreSels fuel st rest = .ok r →
        scoreSels (fuel + 1) st (Selection.fragmentSpread name :: rest) =
          .ok (c + r))
    ∧ (∀ (fuel : Nat) (st : QueryState) (name : String)
          (rest : List Selection),
        st.fragUsed.lookup name = none →
        scoreSels (fuel + 1) st (Selection.fragmentSpread name :: rest) =
          scoreSels fuel st rest) := by
  refine ⟨?_, ?_, ?_⟩
  · intro frags name
    have h := lookup_buildFragAux frags [] name
    simpa [buildFragUsed, lastFragDef] using h
  · intro fuel st name body rest c r hb hc hr
    simp [scoreSels, hb, hc, hr]
  · intro fuel st name rest hb
    simp [scoreSels, hb]

/-- C6 witness: with two definitions of fragment `f`, the registry holds
the later one's selections, and a spread of the unregistered `g`
contributes zero. -/
theorem fragment_registry_and_spread_witness :
    (buildFragUsed
        [⟨"f", [Selection.field "a" [] none]⟩,
         ⟨"f", [Selection.field "b" [] none]⟩]).lookup "f" =
      some [Selection.field "b" [] none]
    ∧ scoreSels 2 ⟨[], [], []⟩ [Selection.fragmentSpread "g"] = .ok 0 := by
  constructor
  · rw [fragment_registry_and_spread.1
      [⟨"f", [Selection.field "a" [] none]⟩,
       ⟨"f", [Selection.field "b" [] none]⟩] "f"]
    rfl
  · rw [fragment_registry_and_spread.2.2 1 ⟨[], [], []⟩ "g" [] rfl]
    rfl

/-- C7 counterexample: a caller-supplied negative override makes the entry
point return a negative total with no error (the document is the single
query `\x7b x \x7d` with override `x ↦ -7`). -/
theorem negative_override_negative_total :
    getQueryComplexity 10
        ⟨[⟨.query, [Selection.field "x" [] none]⟩], []⟩ [] [("x", -7)] =
      .ok (-7)
    ∧ (-7 : Int) < 0 := by
  exact ⟨rfl, by decide⟩
/-- Scoring yields a non-negative value whenever every override value is
non-negative, every registered fragment body passes `countsNonneg`, and the
scored selections pass `countsNonneg` at the same fuel. -/
theorem scoreSels_nonneg (st : QueryState)
    (hov : ∀ name : String, 0 ≤ ((st.fieldOverrides.lookup name).getD 0 : Int))
    (hfrag : ∀ name body, st.fragUsed.lookup name = some body →
        ∀ f : Nat, countsNonneg f st.vars body = true) :
    ∀ (fuel : Nat) (sels : List Selection) (r : Int),
      countsNonneg fuel st.vars sels = true →
      scoreSels fuel st sels = .ok r → 0 ≤ r := by
  intro fuel
  induction fuel with
  | zero =>
    intro sels r _ hs
    cases sels with
    | nil =>
      simp only [scoreSels] at hs
      cases hs
      decide
    | cons sel rest => simp [scoreSels] at hs
  | succ fuel ih =>
    intro sels r hc hs
    cases sels with
    | nil =>
      simp only [scoreSels] at hs
      cases hs
      decide
    | cons sel rest =>
      cases sel with
      | field name args ss =>
        simp only [countsNonneg, Bool.and_eq_true] at hc
        obtain ⟨⟨hcount, hss⟩, hrest⟩ := hc
        simp only [scoreSels] at hs
        by_cases h1 : isOverride name st.fieldOverrides = true
        · rw [if_pos h1] at hs
          cases h2 : scoreSels fuel st rest with
          | error e => rw [h2] at hs; cases hs
          | ok r2 =>
            rw [h2] at hs
            cases hs
            have := ih rest r2 hrest h2
            have := hov name
            omega
        · rw [if_neg h1] at hs
          by_cases h2 : (name == "pageInfo") = true
          · rw [if_pos h2] at hs
            exact ih rest r hrest hs
          · rw [if_neg h2] at hs
            by_cases h3 : (name == "edges") = true
            · rw [if_pos h3] at hs
              cases h4 : scoreSels fuel st (optSels ss) with
              | error e => rw [h4] at hs; cases hs
              | ok c =>
                rw [h4] at hs
                cases h5 : scoreSels fuel st rest with
                | error e => rw [h5] at hs; cases hs
                | ok r2 =>
                  rw [h5] at hs
                  cases hs
                  have := ih (optSels ss) c hss h4
                  have := ih rest r2 hrest h5
                  omega
            · rw [if_neg h3] at hs
              by_cases h6 : isConnection args = true
              · rw [if_pos h6] at hs
                cases h4 : scoreSels fuel st (optSels ss) with
                | error e => rw [h4] at hs; cases hs
                | ok c =>
                  rw [h4] at hs
                  cases h7 : getConnectionNodeCount args st.vars with
                  | error e => rw [h7] at hs; cases hs
                  | ok n =>
                    rw [h7] at hs
                    cases h5 : scoreSels fuel st rest with
                    | error e => rw [h5] at hs; cases hs
                    | ok r2 =>
                      rw [h5] at hs
                      cases hs
                      have hcge : 0 ≤ c := ih (optSels ss) c hss h4
                      have hrge : 0 ≤ r2 := ih rest r2 hrest h5
                      have hnge : 0 ≤ n := by
                        rw [h7] at hcount
                        exact of_decide_eq_true hcount
                      have := mul_nonneg hnge hcge
                      simp only [connectionComplexity]
                      omega
              · rw [if_neg h6] at hs
                cases ss with
                | some inner =>
                  dsimp only at hs
                  cases h4 : scoreSels fuel st inner with
                  | error e => rw [h4] at hs; cases hs
                  | ok c =>
                    rw [h4] at hs
                    cases h5 : scoreSels fuel st rest with
                    | error e => rw [h5] at hs; cases hs
                    | ok r2 =>
                      rw [h5] at hs
                      cases hs
                      have := ih inner c hss h4
                      have := ih rest r2 hrest h5
                      simp only [objectComplexity]
                      omega
                | none => exact ih rest r hrest hs
      | fragmentSpread name =>
        simp only [countsNonneg] at hc
        simp only [scoreSels] at hs
        cases hb : st.fragUsed.lookup name with
        | some body =>
          rw [hb] at hs
          dsimp only at hs
          cases h4 : scoreSels fuel st body with
          | error e => rw [h4] at hs; cases hs
          | ok c =>
            rw [h4] at hs
            cases h5 : scoreSels fuel st rest with
            | error e => rw [h5] at hs; cases hs
            | ok r2 =>
              rw [h5] at hs
              cases hs
              have := ih body c (hfrag name body hb fuel) h4
              have := ih rest r2 hc h5
              omega
        | none =>
          rw [hb] at hs
          dsimp only at hs
          exact ih rest r hc hs
      | inlineFragment sels2 =>
        simp only [countsNonneg, Bool.and_eq_true] at hc
        obtain ⟨hsels, hrest⟩ := hc
        simp only [scoreSels] at hs
        cases h4 : scoreSels fuel st sels2 with
        | error e => rw [h4] at hs; cases hs
        | ok c =>
          rw [h4] at hs
          cases h5 : scoreSels fuel st rest with
          | error e => rw [h5] at hs; cases hs
          | ok r2 =>
            rw [h5] at hs
            cases hs
            have := ih sels2 c hsels h4
            have := ih rest r2 hrest h5
            omega

/-- The mutation children traversal yields a non-negative value under the
same side conditions as `scoreSels_nonneg`. -/
theorem mutationChildrenSum_nonneg (st : QueryState)
    (hov : ∀ name : String, 0 ≤ ((st.fieldOverrides.lookup name).getD 0 : Int))
    (hfrag : ∀ name body, st.fragUsed.lookup name = some body →
        ∀ f : Nat, countsNonneg f st.vars body = true) :
    ∀ (fuel : Nat) (sels : List Selection) (r : Int),
      countsNonneg fuel st.vars sels = true →
      mutationChildrenSum fuel st sels = .ok r → 0 ≤ r := by
  intro fuel
  induction fuel with
  | zero =>
    intro sels r _ hs
    cases sels with
    | nil =>
      simp only [mutationChildrenSum] at hs
      cases hs
      decide
    | cons sel rest => simp [mutationChildrenSum] at hs
  | succ fuel ih =>
    intro sels r hc hs
    cases sels with
    | nil =>
      simp only [mutationChildrenSum] at hs
      cases hs
      decide
    | cons sel rest =>
      cases sel with
      | field name args ss =>
        simp only [countsNonneg, Bool.and_eq_true] at hc
        obtain ⟨⟨hcount, hss⟩, hrest⟩ := hc
        simp only [mutationChildrenSum] at hs
        cases h4 : scoreSels fuel st (optSels ss) with
        | error e => rw [h4] at hs; cases hs
        | ok c =>
          rw [h4] at hs
          cases h5 : mutationChildrenSum fuel st rest with
          | error e => rw [h5] at hs; cases hs
          | ok r2 =>
            rw [h5] at hs
            cases hs
            have := scoreSels_nonneg st hov hfrag fuel (optSels ss) c hss h4
            have := ih rest r2 hrest h5
            omega
      | fragmentSpread name =>
        simp only [countsNonneg] at hc
        simp only [mutationChildrenSum] at hs
        cases hb : st.fragUsed.lookup name with
        | some body =>
          rw [hb] at hs
          dsimp only at hs
          cases h4 : scoreSels fuel st body with
          | error e => rw [h4] at hs; cases hs
          | ok c =>
            rw [h4] at hs
            cases h5 : mutationChildrenSum fuel st rest with
            | error e => rw [h5] at hs; cases hs
            | ok r2 =>
              rw [h5] at hs
              cases hs
              have := scoreSels_nonneg st hov hfrag fuel body c
                (hfrag name body hb fuel) h4
              have := ih rest r2 hc h5
              omega
        | none =>
          rw [hb] at hs
          dsimp only at hs
          exact ih rest r hc hs
      | inlineFragment sels2 =>
        simp only [countsNonneg, Bool.and_eq_true] at hc
        simp only [mutationChildrenSum] at hs
        exact ih rest r hc.2 hs

/-- The mutation top-level traversal yields a non-negative value under the
same side conditions. -/
theorem mutationTopSum_nonneg (st : QueryState)
    (hov : ∀ name : String, 0 ≤ ((st.fieldOverrides.lookup name).getD 0 : Int))
    (hfrag : ∀ name body, st.fragUsed.lookup name = some body →
        ∀ f : Nat, countsNonneg f st.vars body = true) :
    ∀ (fuel : Nat) (sels : List Selection) (r : Int),
      countsNonneg fuel st.vars sels = true →
      mutationTopSum fuel st sels = .ok r → 0 ≤ r := by
  intro fuel
  induction fuel with
  | zero =>
    intro sels r _ hs
    cases sels with
    | nil =>
      simp only [mutationTopSum] at hs
      cases hs
      decide
    | cons sel rest => simp [mutationTopSum] at hs
  | succ fuel ih =>
    intro sels r hc hs
    cases sels with
    | nil =>
      simp only [mutationTopSum] at hs
      cases hs
      decide
    | cons sel rest =>
      cases sel with
      | field name args ss =>
        simp only [countsNonneg, Bool.and_eq_true] at hc
        obtain ⟨⟨hcount, hss⟩, hrest⟩ := hc
        simp only [mutationTopSum] at hs
        cases h4 : mutationChildrenSum fuel st (optSels ss) with
        | error e => rw [h4] at hs; cases hs
        | ok c =>
          rw [h4] at hs
          cases h5 : mutationTopSum fuel st rest with
          | error e => rw [h5] at hs; cases hs
          | ok r2 =>
            rw [h5] at hs
            cases hs
            have := mutationChildrenSum_nonneg st hov hfrag fuel
              (optSels ss) c hss h4
            have := ih rest r2 hrest h5
            omega
      | fragmentSpread name =>
        simp only [countsNonneg] at hc
        simp only [mutationTopSum] at hs
        exact ih rest r hc hs
      | inlineFragment sels2 =>
        simp only [countsNonneg, Bool.and_eq_true] at hc
        simp only [mutationTopSum] at hs
        exact ih rest r hc.2 hs

/-- A fragment body registered by `buildFragUsed` is the selections of one
of the document's fragment definitions. -/
theorem lookup_buildFragUsed_mem (frags : List FragmentDefinition)
    (name : String) (body : List Selection) :
    (buildFragUsed frags).lookup name = some body →
      ∃ fd ∈ frags, fd.selections = body := by
  suffices h : ∀ (fs : List FragmentDefinition)
      (acc : List (String × List Selection)),
      (fs.foldl (fun acc f => (f.name, f.selections) :: acc) acc).lookup
          name = some body →
      (∃ fd ∈ fs, fd.selections = body) ∨ acc.lookup name = some body by
    intro hb
    rcases h frags [] hb with h1 | h1
    · exact h1
    · simp [List.lookup] at h1
  intro fs
  induction fs with
  | nil =>
    intro acc hb
    exact Or.inr hb
  | cons f rest ih =>
    intro acc hb
    simp only [List.foldl_cons] at hb
    rcases ih _ hb with h1 | h1
    · obtain ⟨fd, hmem, hsel⟩ := h1
      exact Or.inl ⟨fd, by simp [hmem], hsel⟩
    · by_cases h : (name == f.name) = true
      · simp only [List.lookup, h] at h1
        cases h1
        exact Or.inl ⟨f, by simp, rfl⟩
      · simp only [Bool.not_eq_true] at h
        simp only [List.lookup, h] at h1
        exact Or.inr h1

/-- The per-operation accumulation yields a non-negative total under the
same side conditions, every operation's selections passing `countsNonneg`
at the run's fuel. -/
theorem opsComplexity_nonneg (st : QueryState) (fuel : Nat)
    (hov : ∀ name : String, 0 ≤ ((st.fieldOverrides.lookup name).getD 0 : Int))
    (hfrag : ∀ name body, st.fragUsed.lookup name = some body →
        ∀ f : Nat, countsNonneg f st.vars body = true) :
    ∀ (ops : List Operation) (r : Int),
      (∀ op ∈ ops, countsNonneg fuel st.vars op.selections = true) →
      opsComplexity fuel st ops = .ok r → 0 ≤ r := by
  intro ops
  induction ops with
  | nil =>
    intro r _ hs
    simp only [opsComplexity] at hs
    cases hs
    decide
  | cons op rest ih =>
    intro r hc hs
    simp only [opsComplexity] at hs
    have hcop := hc op (by simp)
    have hcrest : ∀ o ∈ rest, countsNonneg fuel st.vars o.selections = true :=
      fun o ho => hc o (by simp [ho])
    cases hty : op.opType with
    | query =>
      rw [hty] at hs
      dsimp only at hs
      cases h4 : scoreSels fuel st op.selections with
      | error e => rw [h4] at hs; cases hs
      | ok c =>
        rw [h4] at hs
        cases h5 : opsComplexity fuel st rest with
        | error e => rw [h5] at hs; cases hs
        | ok r2 =>
          rw [h5] at hs
          cases hs
          have := scoreSels_nonneg st hov hfrag fuel op.selections c hcop h4
          have := ih r2 hcrest h5
          omega
    | mutation =>
      rw [hty] at hs
      dsimp only at hs
      cases h4 : calculateMutationComplexity fuel st op.selections with
      | error e => rw [h4] at hs; cases hs
      | ok c =>
        rw [h4] at hs
        cases h5 : opsComplexity fuel st rest with
        | error e => rw [h5] at hs; cases hs
        | ok r2 =>
          rw [h5] at hs
          cases hs
          have hm : 0 ≤ c := by
            simp only [calculateMutationComplexity] at h4
            cases h6 : mutationTopSum fuel st op.selections with
            | error e => rw [h6] at h4; cases h4
            | ok s =>
              rw [h6] at h4
              cases h4
              have := mutationTopSum_nonneg st hov hfrag fuel
                op.selections s hcop h6
              simp only [mutationComplexity]
              omega
          have := ih r2 hcrest h5
          omega
    | subscription =>
      rw [hty] at hs
      dsimp only at hs
      cases h5 : opsComplexity fuel st rest with
      | error e => rw [h5] at hs; cases hs
      | ok r2 =>
        rw [h5] at hs
        cases hs
        have := ih r2 hcrest h5
        omega

/-- C7 (amended): the entry point's total is non-negative whenever every
caller-supplied override value is non-negative and every connection
argument list occurring in the document's operations or fragment
definitions resolves to a non-negative item count (without these caveats
the claim fails: a negative override or a negative `first`/`last` value
propagates to a negative total, as the counterexample shows). -/
theorem total_nonneg_for_nonneg_inputs (fuel : Nat)
    (doc : ExecutableDefinition) (vs : List (String × RuntimeValue))
    (ovs : List (String × Int)) (r : Int)
    (hov : ∀ name : String, 0 ≤ ((ovs.lookup name).getD 0 : Int))
    (hfrag : ∀ f : Nat,
      (doc.fragments.all fun fd => countsNonneg f vs fd.selections) = true)
    (hops :
      (doc.operations.all fun op => countsNonneg fuel vs op.selections) =
        true)
    (hres : getQueryComplexity fuel doc vs ovs = .ok r) : 0 ≤ r := by
  have hfrag2 : ∀ name body,
      (buildFragUsed doc.fragments).lookup name = some body →
      ∀ f : Nat, countsNonneg f vs body = true := by
    intro name body hb f
    obtain ⟨fd, hmem, hsel⟩ := lookup_buildFragUsed_mem doc.fragments
      name body hb
    have := (List.all_eq_true.mp (hfrag f)) fd hmem
    rw [← hsel]
    exact this
  exact opsComplexity_nonneg
    ⟨vs, ovs, buildFragUsed doc.fragments⟩ fuel hov hfrag2
    doc.operations r
    (fun op hop => (List.all_eq_true.mp hops) op hop) hres

/-- C7 witness: the amended theorem applied to the concrete document
`query \x7b groups(first: 5) \x7b edges \x7b node \x7b id \x7d \x7d \x7d \x7d`
with empty variables and overrides, whose total is 7. -/
theorem total_nonneg_for_nonneg_inputs_witness :
    (0 : Int) ≤ 7 ∧
    getQueryComplexity 100
      ⟨[⟨.query,
          [Selection.field "groups" [⟨"first", Value.primitive "5"⟩]
            (some [Selection.field "edges" []
              (some [Selection.field "node" []
                (some [Selection.field "id" [] none])])])]⟩], []⟩
      [] [] = .ok 7 := by
  refine ⟨?_, rfl⟩
  refine total_nonneg_for_nonneg_inputs 100
    ⟨[⟨.query,
        [Selection.field "groups" [⟨"first", Value.primitive "5"⟩]
          (some [Selection.field "edges" []
            (some [Selection.field "node" []
              (some [Selection.field "id" [] none])])])]⟩], []⟩
    [] [] 7 (fun name => ?_) (fun f => rfl) ?_ rfl
  · simp [List.lookup]
  · decide

/-- C1: a `Field` with no caller override, not named `pageInfo` or `edges`,
whose arguments contain `first` or `last`, contributes `n * c + 2` to the
score, where `n` is the resolved item count and `c` the score of its
selection set; in particular with `n = 0` it contributes exactly `2`
regardless of `c`. -/
theorem connection_field_score (fuel : Nat) (st : QueryState)
    (name : String) (args : List Argument) (ss : Option (List Selection))
    (c n : Int)
    (hov : st.fieldOverrides.lookup name = none)
    (hpi : name ≠ "pageInfo") (hed : name ≠ "edges")
    (hconn : isConnection args = true)
    (hc : scoreSels fuel st (optSels ss) = .ok c)
    (hn : getConnectionNodeCount args st.vars = .ok n) :
    (∀ rest r, scoreSels fuel st rest = .ok r →
        scoreSels (fuel + 1) st (Selection.field name args ss :: rest) =
          .ok (n * c + 2 + r))
    ∧ (n = 0 →
        scoreSels (fuel + 1) st [Selection.field name args ss] = .ok 2) := by
  have h1 : isOverride name st.fieldOverrides = false := by
    simp [isOverride, hov]
  have h2 : (name == "pageInfo") = false := beq_eq_false_iff_ne.mpr hpi
  have h3 : (name == "edges") = false := beq_eq_false_iff_ne.mpr hed
  have key : ∀ rest r, scoreSels fuel st rest = .ok r →
      scoreSels (fuel + 1) st (Selection.field name args ss :: rest) =
        .ok (n * c + 2 + r) := by
    intro rest r hr
    simp [scoreSels, h1, h2, h3, hconn, hc, hn, hr, connectionComplexity]
  refine ⟨key, fun hn0 => ?_⟩
  have hempty : scoreSels fuel st ([] : List Selection) = .ok 0 := by
    simp [scoreSels]
  have := key [] 0 hempty
  simpa [hn0] using this

/-- C1 witness: a concrete connection field `groups(first: 0)` over an
empty state contributes exactly 2. -/
theorem connection_field_score_witness :
    scoreSels 6 ⟨[], [], []⟩
      [Selection.field "groups" [⟨"first", Value.primitive "0"⟩]
        (some [Selection.field "x" [] (some [])])] = .ok 2 := by
  exact (connection_field_score 5 ⟨[], [], []⟩ "groups"
    [⟨"first", Value.primitive "0"⟩]
    (some [Selection.field "x" [] (some [])]) 1 0
    rfl (by decide) (by decide) rfl rfl rfl).2 rfl

/-- C8: a `Field` named exactly `pageInfo` with no caller override
contributes zero to the score, and its children are never visited: scoring
the list with it at the head equals scoring the remainder alone, for any
arguments and any selection set. -/
theorem pageInfo_field_scores_zero (fuel : Nat) (st : QueryState)
    (args : List Argument) (ss : Option (List Selection))
    (rest : List Selection)
    (hov : st.fieldOverrides.lookup "pageInfo" = none) :
    scoreSels (fuel + 1) st (Selection.field "pageInfo" args ss :: rest) =
      scoreSels fuel st rest := by
  have h1 : isOverride "pageInfo" st.fieldOverrides = false := by
    simp [isOverride, hov]
  simp [scoreSels, h1]

/-- C8 witness: a concrete nested `pageInfo` field with children scores 0. -/
theorem pageInfo_field_scores_zero_witness :
    scoreSels 3 ⟨[], [], []⟩
      [Selection.field "pageInfo" []
        (some [Selection.field "hasNextPage" [] none])] = .ok 0 := by
  rw [pageInfo_field_scores_zero 2 ⟨[], [], []⟩ []
    (some [Selection.field "hasNextPage" [] none]) [] rfl]
  rfl

/-- C10: a `Field` with no override, not named `pageInfo` or `edges`, with
no `first`/`last` argument, contributes exactly 1 when its selection set is
present but empty, and exactly 0 when its selection set is absent (`nil`):
the two are scored differently. -/
theorem empty_vs_absent_selection_set (fuel : Nat) (st : QueryState)
    (name : String) (args : List Argument) (rest : List Selection)
    (hov : st.fieldOverrides.lookup name = none)
    (hpi : name ≠ "pageInfo") (hed : name ≠ "edges")
    (hconn : isConnection args = false) :
    (∀ r, scoreSels fuel st rest = .ok r →
        scoreSels (fuel + 1) st (Selection.field name args (some []) :: rest) =
          .ok (1 + r))
    ∧ scoreSels (fuel + 1) st (Selection.field name args none :: rest) =
        scoreSels fuel st rest := by
  have h1 : isOverride name st.fieldOverrides = false := by
    simp [isOverride, hov]
  have h2 : (name == "pageInfo") = false := beq_eq_false_iff_ne.mpr hpi
  have h3 : (name == "edges") = false := beq_eq_false_iff_ne.mpr hed
  constructor
  · intro r hr
    simp [scoreSels, h1, h2, h3, hconn, hr, objectComplexity]
  · simp [scoreSels, h1, h2, h3, hconn]

/-- C10 witness: at a concrete input, `x \x7b\x7d` scores 1 while leaf `x`
scores 0. -/
theorem empty_vs_absent_selection_set_witness :
    scoreSels 2 ⟨[], [], []⟩ [Selection.field "x" [] (some [])] = .ok 1
    ∧ scoreSels 2 ⟨[], [], []⟩ [Selection.field "x" [] none] = .ok 0 := by
  constructor
  · have := (empty_vs_absent_selection_set 1 ⟨[], [], []⟩ "x" [] []
      rfl (by decide) (by decide) rfl).1 0 rfl
    simpa using this
  · rw [(empty_vs_absent_selection_set 1 ⟨[], [], []⟩ "x" [] []
      rfl (by decide) (by decide) rfl).2]
    rfl

/-- C3: a `Field` whose name has a caller-supplied override contributes the
override value verbatim and its selection set is never visited (the score
is independent of it); consequently a connection field whose pagination
argument is an undefined variable fails without an override but succeeds
with one. -/
theorem override_replaces_subtree (fuel : Nat) (st : QueryState)
    (name : String) (args : List Argument) (ss : Option (List Selection))
    (v : Int)
    (hov : st.fieldOverrides.lookup name = some v) :
    (∀ rest r, scoreSels fuel st rest = .ok r →
        scoreSels (fuel + 1) st (Selection.field name args ss :: rest) =
          .ok (v + r))
    ∧ (∀ (st2 : QueryState) (name2 : String) (args2 : List Argument)
          (ss2 : Option (List Selection)) (e : String) (c : Int),
        st2.fieldOverrides.lookup name2 = none →
        name2 ≠ "pageInfo" → name2 ≠ "edges" →
        isConnection args2 = true →
        scoreSels fuel st2 (optSels ss2) = .ok c →
        getConnectionNodeCount args2 st2.vars = .error e →
        scoreSels (fuel + 1) st2 [Selection.field name2 args2 ss2] =
          .error e) := by
  constructor
  · intro rest r hr
    have h1 : isOverride name st.fieldOverrides = true := by
      simp [isOverride, hov]
    simp [scoreSels, h1, hov, hr]
  · intro st2 name2 args2 ss2 e c hov2 hpi hed hconn hc herr
    have h1 : isOverride name2 st2.fieldOverrides = false := by
      simp [isOverride, hov2]
    have h2 : (name2 == "pageInfo") = false := beq_eq_false_iff_ne.mpr hpi
    have h3 : (name2 == "edges") = false := beq_eq_false_iff_ne.mpr hed
    simp [scoreSels, h1, h2, h3, hconn, hc, herr]

/-- C3 witness: the connection field `groups(first: $first)` with an empty
variable mapping fails, but adding the override `groups ↦ 4` makes the same
evaluation succeed with score 4. -/
theorem override_replaces_subtree_witness :
    scoreSels 3 ⟨[], [("groups", 4)], []⟩
      [Selection.field "groups" [⟨"first", Value.varValue "first"⟩]
        (some [Selection.field "edges" [] none])] = .ok 4
    ∧ scoreSels 3 ⟨[], [], []⟩
        [Selection.field "groups" [⟨"first", Value.varValue "first"⟩]
          (some [Selection.field "edges" [] none])] =
        .error "Variable first not defined" := by
  constructor
  · have := (override_replaces_subtree 2 ⟨[], [("groups", 4)], []⟩
      "groups" [⟨"first", Value.varValue "first"⟩]
      (some [Selection.field "edges" [] none]) 4 rfl).1 [] 0 rfl
    simpa using this
  · exact (override_replaces_subtree 2 ⟨[], [("groups", 4)], []⟩
      "groups" [⟨"first", Value.varValue "first"⟩]
      (some [Selection.field "edges" [] none]) 4 rfl).2
      ⟨[], [], []⟩ "groups" [⟨"first", Value.varValue "first"⟩]
      (some [Selection.field "edges" [] none])
      "Variable first not defined" 0
      rfl (by decide) (by decide) rfl rfl rfl

/-- C2: a mutation operation scores a fixed base of 10 plus, per top-level
`Field` (the payload), the sum over the payload's immediate children of the
ordinary score of each child `Field`'s own selection set (no object
overhead for payload or child) or of the registered selections for a
resolved child `FragmentSpread`; unresolved spreads and inline fragments
among the children, and non-`Field` top-level selections, contribute
nothing. -/
theorem mutation_score_structure (fuel : Nat) (st : QueryState) :
    (calculateMutationComplexity fuel st [] = .ok 10)
    ∧ (∀ n rest,
        calculateMutationComplexity (fuel + 1) st
            (Selection.fragmentSpread n :: rest) =
          calculateMutationComplexity fuel st rest)
    ∧ (∀ sels rest,
        calculateMutationComplexity (fuel + 1) st
            (Selection.inlineFragment sels :: rest) =
          calculateMutationComplexity fuel st rest)
    ∧ (∀ name args ss rest cs rr,
        mutationChildrenSum fuel st (optSels ss) = .ok cs →
        mutationTopSum fuel st rest = .ok rr →
        calculateMutationComplexity (fuel + 1) st
            (Selection.field name args ss :: rest) = .ok (10 + (cs + rr)))
    ∧ (∀ name args css crest c r,
        scoreSels fuel st (optSels css) = .ok c →
        mutationChildrenSum fuel st crest = .ok r →
        mutationChildrenSum (fuel + 1) st
            (Selection.field name args css :: crest) = .ok (c + r))
    ∧ (∀ name body crest c r,
        st.fragUsed.lookup name = some body →
        scoreSels fuel st body = .ok c →
        mutationChildrenSum fuel st crest = .ok r →
        mutationChildrenSum (fuel + 1) st
            (Selection.fragmentSpread name :: crest) = .ok (c + r))
    ∧ (∀ name crest,
        st.fragUsed.lookup name = none →
        mutationChildrenSum (fuel + 1) st
            (Selection.fragmentSpread name :: crest) =
          mutationChildrenSum fuel st crest)
    ∧ (∀ sels crest,
        mutationChildrenSum (fuel + 1) st
            (Selection.inlineFragment sels :: crest) =
          mutationChildrenSum fuel st crest) := by
  refine ⟨?_, ?_, ?_, ?_, ?_, ?_, ?_, ?_⟩
  · simp [calculateMutationComplexity, mutationTopSum, mutationComplexity]
  · intro n rest
    simp [calculateMutationComplexity, mutationTopSum]
  · intro sels rest
    simp [calculateMutationComplexity, mutationTopSum]
  · intro name args ss rest cs rr hcs hrr
    simp [calculateMutationComplexity, mutationTopSum, hcs, hrr,
      mutationComplexity]
  · intro name args css crest c r hc hr
    simp [mutationChildrenSum, hc, hr]
  · intro name body crest c r hb hc hr
    simp [mutationChildrenSum, hb, hc, hr]
  · intro name crest hb
    simp [mutationChildrenSum, hb]
  · intro sels crest
    simp [mutationChildrenSum]

/-- C2 witness: `mutation \x7b m \x7b child \x7b sub \x7b leaf \x7d \x7d \x7d \x7d`
scores 11: base 10, payload `m` and child `child` exempt from the object
overhead, grandchild `sub` scored by the ordinary rule (+1). -/
theorem mutation_score_structure_witness :
    calculateMutationComplexity 5 ⟨[], [], []⟩
      [Selection.field "m" []
        (some [Selection.field "child" []
          (some [Selection.field "sub" []
            (some [Selection.field "leaf" [] none])])])] = .ok 11 := by
  have hchild :
      mutationChildrenSum 4 ⟨[], [], []⟩
        [Selection.field "child" []
          (some [Selection.field "sub" []
            (some [Selection.field "leaf" [] none])])] = .ok 1 := by
    have := (mutation_score_structure 3 ⟨[], [], []⟩).2.2.2.2.1 "child" []
      (some [Selection.field "sub" [] (some [Selection.field "leaf" [] none])])
      [] 1 0 rfl rfl
    simpa using this
  have := (mutation_score_structure 4 ⟨[], [], []⟩).2.2.2.1 "m" []
    (some [Selection.field "child" []
      (some [Selection.field "sub" []
        (some [Selection.field "leaf" [] none])])])
    [] 1 0 hchild rfl
  simpa using this
/-- C4 counterexample: with argument `first` holding variable `$cnt` absent
from the mapping, the error message carries the argument's name `first`,
not the variable's name `cnt` as the claim states. -/
theorem undefined_variable_error_names_argument :
    getConnectionNodeCount [⟨"first", Value.varValue "cnt"⟩] [] =
      .error "Variable first not defined"
    ∧ "Variable first not defined" ≠ "Variable cnt not defined" := by
  exact ⟨rfl, by decide⟩

/-- C4 (amended): `getConnectionNodeCount` fails exactly when the consulted
pagination argument (the first `first`/`last` argument in source order)
holds a `Variable` whose name is absent from the supplied mapping, and the
error message is `Variable <argument name> not defined`, carrying the
pagination argument's own name; any failure is returned immediately with no
count. -/
theorem node_count_error_characterization (args : List Argument)
    (vs : List (String × RuntimeValue)) (e : String) :
    getConnectionNodeCount args vs = .error e ↔
      ∃ a vname, consultedPaginationArg args = some a ∧
        a.value = Value.varValue vname ∧
        vs.lookup vname = none ∧
        e = "Variable " ++ a.name ++ " not defined" := by
  induction args with
  | nil => simp [getConnectionNodeCount, consultedPaginationArg]
  | cons a rest ih =>
    obtain ⟨aname, aval⟩ := a
    by_cases hp : (aname == "first" || aname == "last") = true
    · simp only [getConnectionNodeCount, consultedPaginationArg] at *
      simp only [hp, if_true]
      cases aval with
      | primitive t => simp
      | varValue vn =>
        dsimp only
        cases hl : List.lookup vn vs with
        | none =>
          dsimp only
          constructor
          · intro h
            have he : "Variable " ++ aname ++ " not defined" = e := by
              simpa using h
            exact ⟨⟨aname, Value.varValue vn⟩, vn, rfl, rfl, hl, he.symm⟩
          · rintro ⟨a2, vn2, ha2, hva, hlv, he⟩
            cases ha2
            cases hva
            simp [he]
        | some rv =>
          dsimp only
          constructor
          · intro h
            exact absurd h (by simp)
          · rintro ⟨a2, vn2, ha2, hva, hlv, he⟩
            cases ha2
            cases hva
            rw [hl] at hlv
            exact absurd hlv (by simp)
      | nullValue => simp
      | listValue l => simp
      | objectValue f => simp
    · simp only [Bool.not_eq_true] at hp
      simp only [getConnectionNodeCount, consultedPaginationArg, hp,
        if_false]
      exact ih

/-- C4 witness: the characterization applied at a concrete argument list
with a skipped non-pagination argument. -/
theorem node_count_error_characterization_witness :
    getConnectionNodeCount
      [⟨"sort", Value.primitive "ASC"⟩, ⟨"last", Value.varValue "n"⟩] [] =
      .error "Variable last not defined" := by
  exact (node_count_error_characterization
    [⟨"sort", Value.primitive "ASC"⟩, ⟨"last", Value.varValue "n"⟩] []
    "Variable last not defined").mpr
    ⟨⟨"last", Value.varValue "n"⟩, "n", rfl, rfl, rfl, rfl⟩

/-- C5: the resolved item count is decided solely by the first `first`/`last`
argument in source order (later arguments, pagination or not, are never
consulted); a `PrimitiveValue` whose text is not a base-10 integer yields
count 0 without error; a `Variable` whose runtime value is present but not
an integer-convertible decimal number, float64 or float32 yields count 0
without error. -/
theorem node_count_resolution (vs : List (String × RuntimeValue)) :
    (∀ (pre : List Argument) (a : Argument) (post : List Argument),
        (∀ b ∈ pre, b.name ≠ "first" ∧ b.name ≠ "last") →
        (a.name = "first" ∨ a.name = "last") →
        getConnectionNodeCount (pre ++ a :: post) vs =
          getConnectionNodeCount [a] vs)
    ∧ (∀ name text, (name = "first" ∨ name = "last") →
        strconvAtoi text = none →
        getConnectionNodeCount [⟨name, Value.primitive text⟩] vs = .ok 0)
    ∧ (∀ name vname rv, (name = "first" ∨ name = "last") →
        vs.lookup vname = some rv →
        nonIntegerRuntime rv →
        getConnectionNodeCount [⟨name, Value.varValue vname⟩] vs =
          .ok 0) := by
  have hbeq : ∀ (a : Argument), (a.name = "first" ∨ a.name = "last") →
      (a.name == "first" || a.name == "last") = true := by
    intro a h
    rcases h with h | h <;> simp [h]
  refine ⟨?_, ?_, ?_⟩
  · intro pre a post hpre ha
    induction pre with
    | nil =>
      simp only [List.nil_append]
      simp only [getConnectionNodeCount, hbeq a ha, if_true]
    | cons b pre ih =>
      have hb := hpre b (by simp)
      have hb1 : (b.name == "first") = false := beq_eq_false_iff_ne.mpr hb.1
      have hb2 : (b.name == "last") = false := beq_eq_false_iff_ne.mpr hb.2
      simp only [List.cons_append, getConnectionNodeCount, hb1, hb2,
        Bool.or_self, Bool.false_or, if_false]
      exact ih fun x hx => hpre x (by simp [hx])
  · intro name text hn htext
    simp [getConnectionNodeCount, hbeq ⟨name, Value.primitive text⟩ hn,
      htext]
  · intro name vname rv hn hl hrv
    have := hbeq ⟨name, Value.varValue vname⟩ hn
    match rv, hrv with
    | .jsonNumber t, h =>
      have h2 : strconvAtoi t = none := h
      simp [getConnectionNodeCount, this, hl, coerceRuntime, h2]
    | .stringVal s, _ =>
      simp [getConnectionNodeCount, this, hl, coerceRuntime]
    | .boolVal b, _ =>
      simp [getConnectionNodeCount, this, hl, coerceRuntime]
    | .nullValue, _ =>
      simp [getConnectionNodeCount, this, hl, coerceRuntime]

/-- C5 witness: with a leading non-pagination argument, a non-numeric
`first` primitive resolves to 0 and the trailing `last: 9` is never
consulted; a variable holding a string also resolves to 0. -/
theorem node_count_resolution_witness :
    getConnectionNodeCount
      [⟨"sort", Value.primitive "ASC"⟩, ⟨"first", Value.primitive "abc"⟩,
       ⟨"last", Value.primitive "9"⟩] [] = .ok 0
    ∧ getConnectionNodeCount [⟨"first", Value.varValue "v"⟩]
        [("v", RuntimeValue.stringVal "five")] = .ok 0 := by
  constructor
  · have h := (node_count_resolution []).1 [⟨"sort", Value.primitive "ASC"⟩]
      ⟨"first", Value.primitive "abc"⟩ [⟨"last", Value.primitive "9"⟩]
      (by intro b hb; simp at hb; subst hb; exact ⟨by decide, by decide⟩)
      (Or.inl rfl)
    simp only [List.cons_append, List.nil_append] at h
    rw [h]
    exact (node_count_resolution []).2.1 "first" "abc" (Or.inl rfl) rfl
  · exact (node_count_resolution [("v", RuntimeValue.stringVal "five")]).2.2
      "first" "v" (RuntimeValue.stringVal "five") (Or.inl rfl) rfl trivial

end GQLComplexity
